import Mathlib

/-!
Shallow embedding of `dataset_new/image.py` from wlguan/tensorflow2.0-yolov3.

An image is a height × width × channel numeric array.  We model the pixel
array as a total function `Nat → Nat → Nat → ℚ` together with its shape;
only entries with `i < h`, `j < w`, `k < c` are meaningful, and array
equality is shape equality plus pointwise equality on the in-shape region
(the semantics of `np.array_equal`).  NumPy float64/float32 arithmetic is
modelled by exact rational arithmetic (`astype(np.float32)` is the identity
in this model); Python `int(x)` on a nonnegative value is `Int.floor`.
-/

set_option autoImplicit false

namespace Yolo3Img

/-- An H × W × C array: shape plus the pixel map. -/
structure Image where
  h : Nat
  w : Nat
  c : Nat
  data : Nat → Nat → Nat → ℚ

/-- `np.array_equal`: same shape and the same entries on the in-shape region. -/
def Image.EqOn (a b : Image) : Prop :=
  a.h = b.h ∧ a.w = b.w ∧ a.c = b.c ∧
    ∀ i j k, i < a.h → j < a.w → k < a.c → a.data i j k = b.data i j k

/-- `img_flip` (image.py line 17): `np.fliplr(img)`, mirror along the width
axis.  Column `j` of the result is column `w - 1 - j` of the input. -/
def img_flip (img : Image) : Image :=
  { img with data := fun i j k => img.data i (img.w - 1 - j) k }

/-- `imnormalize` (image.py lines 195-197): `img = (img - mean) / std` then
`img /= 255.0`, then `astype(np.float32)` (identity here).  `mean`/`std` are
per-channel vectors, broadcast elementwise over the channel index. -/
def imnormalize (img : Image) (mean std : Nat → ℚ) : Image :=
  { img with data := fun i j k => ((img.data i j k - mean k) / std k) / 255 }

/-- `imdenormalize` (image.py line 213): `img = norm_img * std + mean`, then
`astype(np.float32)` (identity here). -/
def imdenormalize (img : Image) (mean std : Nat → ℚ) : Image :=
  { img with data := fun i j k => img.data i j k * std k + mean k }

/-- The error NumPy raises when a slice assignment cannot broadcast the
source array into the destination slice (a `ValueError` whose message
carries both shapes: "could not broadcast input array from shape ... into
shape ..."). -/
inductive NpError where
  | broadcastMismatch (srcShape dstShape : Nat × Nat × Nat)
deriving DecidableEq

/-- The canvas built by `impad_to_square` when its slice assignment
succeeds: a `pad_size × pad_size × C` zero canvas whose top-left region of
`min pad_size h` rows and `min pad_size w` columns is copied from the
source (NumPy clips the slice `pad[:h, :w]` to the canvas bounds). -/
def squareCanvas (img : Image) (padSize : Nat) : Image :=
  { h := padSize, w := padSize, c := img.c,
    data := fun i j k =>
      if i < min padSize img.h ∧ j < min padSize img.w then img.data i j k else 0 }

/-- `impad_to_square` (image.py lines 127-130): allocates a zero canvas of
shape `(pad_size, pad_size, C)` and assigns
`pad[:img.shape[0], :img.shape[1], ...] = img`.  NumPy clips the slice to
`min pad_size h` × `min pad_size w` and broadcasts the source against the
clipped destination: each source dimension must equal the destination
dimension or be 1, otherwise the assignment raises a broadcast
`ValueError`.  (The destination dimensions never exceed the source ones
here, so a successful broadcast never replicates data.) -/
def impad_to_square (img : Image) (padSize : Nat) : Except NpError Image :=
  if (img.h = min padSize img.h ∨ img.h = 1) ∧ (img.w = min padSize img.w ∨ img.w = 1)
  then .ok (squareCanvas img padSize)
  else .error (.broadcastMismatch (img.h, img.w, img.c)
      (min padSize img.h, min padSize img.w, img.c))

/-- `int(np.ceil(n / divisor)) * divisor` in exact arithmetic: the padded
edge length used by `impad_to_multiple`. -/
def padEdge (n d : Nat) : Nat := (⌈(n : ℚ) / (d : ℚ)⌉).toNat * d

/-- `impad_to_multiple` (image.py lines 145-151): pads height and width up
to `int(np.ceil(edge / divisor)) * divisor`, copying the source into the
top-left corner and zero-filling the rest.  For `divisor ≥ 1` the padded
edges are at least the source edges, so the slice assignment is an exact
copy (Python would raise `ZeroDivisionError` before touching the array if
`divisor = 0`). -/
def impad_to_multiple (img : Image) (divisor : Nat) : Image :=
  { h := padEdge img.h divisor, w := padEdge img.w divisor, c := img.c,
    data := fun i j k => if i < img.h ∧ j < img.w then img.data i j k else 0 }

/-- A concrete 2 × 3 × 3 test image with distinct entries. -/
def sampleImg : Image :=
  { h := 2, w := 3, c := 3, data := fun i j k => (100 * i + 10 * j + k : Nat) }

/-- A 1 × 1 × 3 image whose single pixel is (255, 255, 255). -/
def whiteImg : Image :=
  { h := 1, w := 1, c := 3, data := fun _ _ _ => 255 }

end Yolo3Img

namespace Yolo3Img

/-- C9: for every image, applying `img_flip` (horizontal flip) twice returns
an array exactly equal to the original image: same shape, and every in-shape
entry agrees. -/
theorem img_flip_involutive (img : Image) : (img_flip (img_flip img)).EqOn img := by
  refine ⟨rfl, rfl, rfl, fun i j k _ hj _ => ?_⟩
  show img.data i (img.w - 1 - (img.w - 1 - j)) k = img.data i j k
  have hj1 : j ≤ img.w - 1 := Nat.le_sub_one_of_lt hj
  rw [Nat.sub_sub_self hj1]

/-- C5: `imnormalize` computes exactly `((image - mean) / std) / 255.0` and
`imdenormalize` computes exactly `normalized * std + mean`, elementwise, with
shapes unchanged (the concluding `astype(np.float32)` casts are identities in
the exact-arithmetic model).  The nonzero-std hypothesis is the caller
contract stated by the claim; the formulas hold elementwise as equations of
rational arithmetic. -/
theorem imnormalize_imdenormalize_formulas (img : Image) (mean std : Nat → ℚ)
    (i j k : Nat) (_hstd : std k ≠ 0) :
    (imnormalize img mean std).data i j k = ((img.data i j k - mean k) / std k) / 255 ∧
    (imdenormalize img mean std).data i j k = img.data i j k * std k + mean k ∧
    (imnormalize img mean std).h = img.h ∧ (imnormalize img mean std).w = img.w ∧
    (imnormalize img mean std).c = img.c ∧
    (imdenormalize img mean std).h = img.h ∧ (imdenormalize img mean std).w = img.w ∧
    (imdenormalize img mean std).c = img.c := by
  exact ⟨rfl, rfl, rfl, rfl, rfl, rfl, rfl, rfl⟩

/-- Witness for C5 at a concrete pixel of `sampleImg` with mean 3, std 2. -/
theorem imnormalize_imdenormalize_formulas_witness :
    ((fun _ : Nat => (2 : ℚ)) 1 ≠ 0) ∧
    ((imnormalize sampleImg (fun _ => 3) (fun _ => 2)).data 1 2 1 =
        ((sampleImg.data 1 2 1 - 3) / 2) / 255 ∧
      (imdenormalize sampleImg (fun _ => 3) (fun _ => 2)).data 1 2 1 =
        sampleImg.data 1 2 1 * 2 + 3 ∧
      (imnormalize sampleImg (fun _ => 3) (fun _ => 2)).h = sampleImg.h ∧
      (imnormalize sampleImg (fun _ => 3) (fun _ => 2)).w = sampleImg.w ∧
      (imnormalize sampleImg (fun _ => 3) (fun _ => 2)).c = sampleImg.c ∧
      (imdenormalize sampleImg (fun _ => 3) (fun _ => 2)).h = sampleImg.h ∧
      (imdenormalize sampleImg (fun _ => 3) (fun _ => 2)).w = sampleImg.w ∧
      (imdenormalize sampleImg (fun _ => 3) (fun _ => 2)).c = sampleImg.c) :=
  ⟨by norm_num,
    imnormalize_imdenormalize_formulas sampleImg (fun _ => 3) (fun _ => 2) 1 2 1
      (by norm_num)⟩

/-- C1 counterexample: the round trip is NOT the identity.  For the white
pixel 255 with mean 0, std 1, `imdenormalize (imnormalize x)` yields 1, not
255 — a factor-255 discrepancy, far beyond floating-point rounding (both
values are exactly representable in float32).  `imnormalize` divides by 255
but `imdenormalize` never multiplies by 255 back. -/
theorem roundtrip_fails_at_255 :
    (imdenormalize (imnormalize whiteImg (fun _ => 0) (fun _ => 1))
        (fun _ => 0) (fun _ => 1)).data 0 0 0 = 1 ∧
    (1 : ℚ) ≠ 255 ∧ whiteImg.data 0 0 0 = 255 := by
  refine ⟨?_, by norm_num, rfl⟩
  show ((((255 : ℚ) - 0) / 1) / 255) * 1 + 0 = 1
  norm_num

/-- C1 amended: `imdenormalize (imnormalize x mean std) mean std` equals
`(x - mean) / 255 + mean` elementwise (so it equals `x` only where
`x = mean`); `imdenormalize` is the exact inverse of the mean/std affine
normalization *without* the final division by 255:
`imdenormalize ((x - mean) / std) = x`. -/
theorem imdenormalize_imnormalize_eq (img : Image) (mean std : Nat → ℚ)
    (i j k : Nat) (hstd : std k ≠ 0) :
    (imdenormalize (imnormalize img mean std) mean std).data i j k =
      (img.data i j k - mean k) / 255 + mean k ∧
    ((img.data i j k - mean k) / std k) * std k + mean k = img.data i j k := by
  constructor
  · show (((img.data i j k - mean k) / std k) / 255) * std k + mean k =
      (img.data i j k - mean k) / 255 + mean k
    field_simp
    ring
  · field_simp

/-- Witness for the amended C1 at the white pixel with mean 7, std 2:
the round trip returns `(255 - 7) / 255 + 7`, and the un-scaled
normalization inverts exactly. -/
theorem imdenormalize_imnormalize_eq_witness :
    ((fun _ : Nat => (2 : ℚ)) 0 ≠ 0) ∧
    ((imdenormalize (imnormalize whiteImg (fun _ => 7) (fun _ => 2))
        (fun _ => 7) (fun _ => 2)).data 0 0 0 =
      (whiteImg.data 0 0 0 - 7) / 255 + 7 ∧
    ((whiteImg.data 0 0 0 - 7) / 2) * 2 + 7 = whiteImg.data 0 0 0) :=
  ⟨by norm_num,
    imdenormalize_imnormalize_eq whiteImg (fun _ => 7) (fun _ => 2) 0 0 0 (by norm_num)⟩

end Yolo3Img

namespace Yolo3Img

/-- A 1 × 1 × 1 image with pixel value 7. -/
def dotImg : Image := { h := 1, w := 1, c := 1, data := fun _ _ _ => 7 }

/-- A 3 × 1 × 1 image. -/
def tallImg : Image := { h := 3, w := 1, c := 1, data := fun i _ _ => (i : ℚ) }

/-- The 300 × 400 × 3 image of the concrete padding scenario. -/
def bigImg : Image :=
  { h := 300, w := 400, c := 3, data := fun i j k => (1000 * i + 10 * j + k : Nat) }

theorem padEdge_cast (n d : Nat) :
    ((padEdge n d : Nat) : ℚ) = (⌈(n : ℚ) / (d : ℚ)⌉ : ℚ) * d := by
  have h3 : 0 ≤ ⌈(n : ℚ) / (d : ℚ)⌉ :=
    Int.ceil_nonneg (div_nonneg (Nat.cast_nonneg n) (Nat.cast_nonneg d))
  have h5 : ((⌈(n : ℚ) / (d : ℚ)⌉.toNat : Nat) : ℚ) = (⌈(n : ℚ) / (d : ℚ)⌉ : ℚ) := by
    exact_mod_cast Int.toNat_of_nonneg h3
  unfold padEdge
  push_cast
  rw [h5]

theorem le_padEdge (n d : Nat) (hd : 1 ≤ d) : n ≤ padEdge n d := by
  have hd0 : (0 : ℚ) < d := by exact_mod_cast hd
  have h1 : (n : ℚ) / d ≤ (⌈(n : ℚ) / (d : ℚ)⌉ : ℚ) := Int.le_ceil _
  have h2 : (n : ℚ) ≤ (⌈(n : ℚ) / (d : ℚ)⌉ : ℚ) * d := (div_le_iff₀ hd0).mp h1
  have h4 : (n : ℚ) ≤ ((padEdge n d : Nat) : ℚ) := by rw [padEdge_cast]; exact h2
  exact_mod_cast h4

theorem padEdge_lt_add (n d : Nat) (hd : 1 ≤ d) : padEdge n d < n + d := by
  have hd0 : (0 : ℚ) < d := by exact_mod_cast hd
  have h1 : (⌈(n : ℚ) / (d : ℚ)⌉ : ℚ) < (n : ℚ) / d + 1 := Int.ceil_lt_add_one _
  have h2 : (⌈(n : ℚ) / (d : ℚ)⌉ : ℚ) * d < ((n : ℚ) / d + 1) * d :=
    mul_lt_mul_of_pos_right h1 hd0
  have h3 : ((n : ℚ) / d + 1) * d = (n : ℚ) + d := by field_simp
  have h4 : ((padEdge n d : Nat) : ℚ) < (n : ℚ) + d := by
    rw [padEdge_cast]; rw [h3] at h2; exact h2
  exact_mod_cast h4

theorem dvd_padEdge (n d : Nat) : d ∣ padEdge n d := by
  unfold padEdge
  exact dvd_mul_left _ _

/-- C6: for a positive divisor `d` (and positive image dimensions), the
height and width of `impad_to_multiple img d` are each the smallest
multiple of `d` that is ≥ the corresponding input dimension — stated
quantifier-free as: divisible by `d`, at least the input edge, and less
than the input edge plus `d` (for `d ∣ H` these three conjuncts are
equivalent to `H` being the least multiple of `d` ≥ the edge) — and the
channel count is unchanged. -/
theorem impad_to_multiple_shape (img : Image) (d : Nat) (hd : 1 ≤ d)
    (_hh : 1 ≤ img.h) (_hw : 1 ≤ img.w) :
    (img.h ≤ (impad_to_multiple img d).h ∧ d ∣ (impad_to_multiple img d).h ∧
      (impad_to_multiple img d).h < img.h + d) ∧
    (img.w ≤ (impad_to_multiple img d).w ∧ d ∣ (impad_to_multiple img d).w ∧
      (impad_to_multiple img d).w < img.w + d) ∧
    (impad_to_multiple img d).c = img.c :=
  ⟨⟨le_padEdge _ _ hd, dvd_padEdge _ _, padEdge_lt_add _ _ hd⟩,
   ⟨le_padEdge _ _ hd, dvd_padEdge _ _, padEdge_lt_add _ _ hd⟩, rfl⟩

/-- Witness for C6: `sampleImg` (2 × 3 × 3) padded to a multiple of 4 has
edges that are multiples of 4, at least the source edges, and within one
divisor of them. -/
theorem impad_to_multiple_shape_witness :
    (1 ≤ 4 ∧ 1 ≤ sampleImg.h ∧ 1 ≤ sampleImg.w) ∧
    ((sampleImg.h ≤ (impad_to_multiple sampleImg 4).h ∧
        4 ∣ (impad_to_multiple sampleImg 4).h ∧
        (impad_to_multiple sampleImg 4).h < sampleImg.h + 4) ∧
      (sampleImg.w ≤ (impad_to_multiple sampleImg 4).w ∧
        4 ∣ (impad_to_multiple sampleImg 4).w ∧
        (impad_to_multiple sampleImg 4).w < sampleImg.w + 4) ∧
      (impad_to_multiple sampleImg 4).c = sampleImg.c) :=
  ⟨⟨by decide, by decide, by decide⟩,
    impad_to_multiple_shape sampleImg 4 (by decide) (by decide) (by decide)⟩

/-- C7: when the image fits (`h ≤ pad_size` and `w ≤ pad_size`),
`impad_to_square` succeeds and returns a `pad_size × pad_size × C` canvas
whose `[0:h, 0:w, :]` region equals the source and whose remaining entries
are exactly zero. -/
theorem impad_to_square_ok (img : Image) (padSize i j k : Nat)
    (hh : img.h ≤ padSize) (hw : img.w ≤ padSize) :
    impad_to_square img padSize = .ok (squareCanvas img padSize) ∧
    (squareCanvas img padSize).h = padSize ∧
    (squareCanvas img padSize).w = padSize ∧
    (squareCanvas img padSize).c = img.c ∧
    (i < img.h → j < img.w → (squareCanvas img padSize).data i j k = img.data i j k) ∧
    (i < padSize → j < padSize → (img.h ≤ i ∨ img.w ≤ j) →
      (squareCanvas img padSize).data i j k = 0) := by
  have hmh : min padSize img.h = img.h := Nat.min_eq_right hh
  have hmw : min padSize img.w = img.w := Nat.min_eq_right hw
  refine ⟨?_, rfl, rfl, rfl, ?_, ?_⟩
  · unfold impad_to_square
    rw [if_pos ⟨Or.inl hmh.symm, Or.inl hmw.symm⟩]
  · intro hi hj
    show (if i < min padSize img.h ∧ j < min padSize img.w then img.data i j k else 0) =
      img.data i j k
    rw [hmh, hmw, if_pos ⟨hi, hj⟩]
  · intro _ _ hout
    show (if i < min padSize img.h ∧ j < min padSize img.w then img.data i j k else 0) = 0
    rw [hmh, hmw, if_neg]
    rintro ⟨hi, hj⟩
    rcases hout with h | h
    · exact absurd hi (Nat.not_lt_of_le h)
    · exact absurd hj (Nat.not_lt_of_le h)

/-- Witness for C7: the 300 × 400 × 3 image padded to 512 succeeds, has
shape 512 × 512 × 3, and agrees with the source at the corner pixel
(299, 399, 2). -/
theorem impad_to_square_ok_witness :
    (bigImg.h ≤ 512 ∧ bigImg.w ≤ 512) ∧
    (impad_to_square bigImg 512 = .ok (squareCanvas bigImg 512) ∧
      (squareCanvas bigImg 512).h = 512 ∧
      (squareCanvas bigImg 512).w = 512 ∧
      (squareCanvas bigImg 512).c = bigImg.c ∧
      (299 < bigImg.h → 399 < bigImg.w →
        (squareCanvas bigImg 512).data 299 399 2 = bigImg.data 299 399 2) ∧
      (299 < 512 → 399 < 512 → (bigImg.h ≤ 299 ∨ bigImg.w ≤ 399) →
        (squareCanvas bigImg 512).data 299 399 2 = 0)) :=
  ⟨⟨by decide, by decide⟩,
    impad_to_square_ok bigImg 512 299 399 2 (by decide) (by decide)⟩

/-- C3 counterexample: the claim demands that `impad_to_square` fail
whenever a source dimension exceeds the target size, yet for the 1 × 1 × 1
image and `pad_size = 0` (height 1 > size 0) NumPy broadcasts the 1-sized
dimensions into the empty slice and the call silently succeeds, returning
an empty 0 × 0 × 1 canvas — the image is silently cropped away entirely,
with no error of any kind. -/
theorem impad_to_square_silent_crop :
    impad_to_square dotImg 0 = .ok (squareCanvas dotImg 0) ∧
    (squareCanvas dotImg 0).h = 0 ∧ (squareCanvas dotImg 0).w = 0 ∧
    0 < dotImg.h ∧ 0 < dotImg.w :=
  ⟨rfl, rfl, rfl, Nat.one_pos, Nat.one_pos⟩

/-- C3 amended: for a positive target size and positive image dimensions,
if height or width exceeds `pad_size` then `impad_to_square` fails fast
with NumPy's broadcast `ValueError` — whose payload carries the source
shape and the clipped destination shape, the offending dimension being the
one where the source exceeds the destination — and no truncated or cropped
image is ever returned.  (With `pad_size = 0`, dimensions equal to 1
instead broadcast silently; see the counterexample.) -/
theorem impad_to_square_err (img : Image) (padSize : Nat) (hp : 1 ≤ padSize)
    (_hh : 1 ≤ img.h) (_hw : 1 ≤ img.w) (hbig : padSize < img.h ∨ padSize < img.w) :
    impad_to_square img padSize =
      .error (.broadcastMismatch (img.h, img.w, img.c)
        (min padSize img.h, min padSize img.w, img.c)) := by
  unfold impad_to_square
  rw [if_neg (by omega)]

/-- Witness for the amended C3: the 3 × 1 × 1 image with `pad_size = 2`
raises the broadcast error recording source shape (3, 1, 1) and clipped
destination shape (2, 1, 1). -/
theorem impad_to_square_err_witness :
    (1 ≤ 2 ∧ 1 ≤ tallImg.h ∧ 1 ≤ tallImg.w ∧ (2 < tallImg.h ∨ 2 < tallImg.w)) ∧
    impad_to_square tallImg 2 =
      .error (.broadcastMismatch (tallImg.h, tallImg.w, tallImg.c)
        (min 2 tallImg.h, min 2 tallImg.w, tallImg.c)) :=
  ⟨⟨by decide, by decide, by decide, by decide⟩,
    impad_to_square_err tallImg 2 (by decide) (by decide) (by decide)
      (Or.inl (by decide))⟩

end Yolo3Img

namespace Yolo3Img

/-- Python `int(x + 0.5)` for nonnegative `x`: round half up (``int``
truncates toward zero, which is `Int.floor` on nonnegative values). -/
def roundHalf (x : ℚ) : Nat := (⌊x + 1/2⌋).toNat

/-- The scale factor of `imrescale` (image.py lines 168-171):
`min(max(scale) / max(h, w), min(scale) / min(h, w))` with exact division,
where `(a, b)` is the target box `scale`. -/
def rescaleFactor (h w a b : Nat) : ℚ :=
  min (((max a b : Nat) : ℚ) / ((max h w : Nat) : ℚ))
      (((min a b : Nat) : ℚ) / ((min h w : Nat) : ℚ))

/-- `imrescale` (image.py lines 154-179), shape/scale semantics: computes
the scale factor above and the rounded output size
`new_size = (int(w * scale_factor + 0.5), int(h * scale_factor + 0.5))`
handed to `cv2.resize`.  `cv2.resize` is an external collaborator that
returns an array of exactly that (width, height); its interpolated pixel
content is outside the claims and not modelled.  The target box tuple
`scale = (a, b)` is passed as two arguments.  Result:
`((new_w, new_h), scale_factor)`. -/
def imrescale (h w a b : Nat) : (Nat × Nat) × ℚ :=
  ((roundHalf ((w : ℚ) * rescaleFactor h w a b),
    roundHalf ((h : ℚ) * rescaleFactor h w a b)),
   rescaleFactor h w a b)

theorem roundHalf_le (x : ℚ) (n : Nat) (hx : x ≤ (n : ℚ)) : roundHalf x ≤ n := by
  have h2 : ⌊(n : ℚ) + 1/2⌋ = (n : Int) := by
    rw [Int.floor_eq_iff]
    constructor
    · push_cast; linarith
    · push_cast; linarith
  have h1 : ⌊x + 1/2⌋ ≤ (n : Int) := by
    rw [← h2]; exact Int.floor_le_floor (by linarith)
  exact Int.toNat_le.mpr h1

theorem rescaleFactor_concrete : rescaleFactor 100 200 448 448 = 56 / 25 := by
  unfold rescaleFactor
  norm_num [Nat.max_def, Nat.min_def, min_def]

theorem imrescale_concrete : imrescale 100 200 448 448 = ((448, 224), 56 / 25) := by
  have hA : ((200 : Nat) : ℚ) * (56 / 25) + 1/2 = 897 / 2 := by push_cast; norm_num
  have hB : ((100 : Nat) : ℚ) * (56 / 25) + 1/2 = 449 / 2 := by push_cast; norm_num
  have hfA : ⌊(897 / 2 : ℚ)⌋ = (448 : Int) := by
    rw [Int.floor_eq_iff]
    constructor
    · norm_num
    · norm_num
  have hfB : ⌊(449 / 2 : ℚ)⌋ = (224 : Int) := by
    rw [Int.floor_eq_iff]
    constructor
    · norm_num
    · norm_num
  unfold imrescale roundHalf
  rw [rescaleFactor_concrete, hA, hB, hfA, hfB]
  rfl

/-- C2: for every image of positive dimensions `h × w` and every target box
`(a, b)`, `imrescale` returns scale factor
`min(target_long / max(h, w), target_short / min(h, w))`, and the output
dimensions, rounded half-up as `int(edge * scale + 0.5)`, fit within the
target box (the larger output edge is at most the larger target edge and
the smaller at most the smaller); in particular a 100 × 200 image rescaled
to (448, 448) yields scale factor 2.24 = 56/25, output width 448 and
height 224. -/
theorem imrescale_spec (h w a b : Nat) (hh : 1 ≤ h) (hw : 1 ≤ w) :
    (imrescale h w a b).2 =
      min (((max a b : Nat) : ℚ) / ((max h w : Nat) : ℚ))
          (((min a b : Nat) : ℚ) / ((min h w : Nat) : ℚ)) ∧
    max (imrescale h w a b).1.1 (imrescale h w a b).1.2 ≤ max a b ∧
    min (imrescale h w a b).1.1 (imrescale h w a b).1.2 ≤ min a b ∧
    imrescale 100 200 448 448 = ((448, 224), 56 / 25) := by
  have hmaxpos : (0 : ℚ) < ((max h w : Nat) : ℚ) := by
    have h1 : 1 ≤ max h w := le_trans hh (Nat.le_max_left _ _)
    exact_mod_cast h1
  have hminpos : (0 : ℚ) < ((min h w : Nat) : ℚ) := by
    have h1 : 1 ≤ min h w := le_min hh hw
    exact_mod_cast h1
  set s := rescaleFactor h w a b with hs
  have hs0 : 0 ≤ s := by
    refine le_min (div_nonneg ?_ ?_) (div_nonneg ?_ ?_) <;> positivity
  have hlong : s * ((max h w : Nat) : ℚ) ≤ ((max a b : Nat) : ℚ) :=
    (le_div_iff₀ hmaxpos).mp (min_le_left _ _)
  have hshort : s * ((min h w : Nat) : ℚ) ≤ ((min a b : Nat) : ℚ) :=
    (le_div_iff₀ hminpos).mp (min_le_right _ _)
  have hwle : (w : ℚ) * s ≤ ((max a b : Nat) : ℚ) := by
    have h1 : (w : ℚ) ≤ ((max h w : Nat) : ℚ) := by exact_mod_cast Nat.le_max_right h w
    nlinarith
  have hhle : (h : ℚ) * s ≤ ((max a b : Nat) : ℚ) := by
    have h1 : (h : ℚ) ≤ ((max h w : Nat) : ℚ) := by exact_mod_cast Nat.le_max_left h w
    nlinarith
  refine ⟨rfl, ?_, ?_, imrescale_concrete⟩
  · exact max_le (roundHalf_le _ _ hwle) (roundHalf_le _ _ hhle)
  · rcases Nat.le_total h w with hcase | hcase
    · have hmin : ((min h w : Nat) : ℚ) = (h : ℚ) := by
        rw [Nat.min_eq_left hcase]
      have h2 : (h : ℚ) * s ≤ ((min a b : Nat) : ℚ) := by
        rw [← hmin]; linarith [hshort]
      exact min_le_of_right_le (roundHalf_le _ _ h2)
    · have hmin : ((min h w : Nat) : ℚ) = (w : ℚ) := by
        rw [Nat.min_eq_right hcase]
      have h2 : (w : ℚ) * s ≤ ((min a b : Nat) : ℚ) := by
        rw [← hmin]; linarith [hshort]
      exact min_le_of_left_le (roundHalf_le _ _ h2)

/-- Witness for C2 at the claim's concrete instance: the 100 × 200 image
rescaled to the (448, 448) box. -/
theorem imrescale_spec_witness :
    (1 ≤ 100 ∧ 1 ≤ 200) ∧
    ((imrescale 100 200 448 448).2 =
        min (((max 448 448 : Nat) : ℚ) / ((max 100 200 : Nat) : ℚ))
            (((min 448 448 : Nat) : ℚ) / ((min 100 200 : Nat) : ℚ)) ∧
      max (imrescale 100 200 448 448).1.1 (imrescale 100 200 448 448).1.2 ≤
        max 448 448 ∧
      min (imrescale 100 200 448 448).1.1 (imrescale 100 200 448 448).1.2 ≤
        min 448 448 ∧
      imrescale 100 200 448 448 = ((448, 224), 56 / 25)) :=
  ⟨⟨by decide, by decide⟩, imrescale_spec 100 200 448 448 (by decide) (by decide)⟩

end Yolo3Img

namespace Yolo3Img

/-- Python `int(edge * ratio)` for a nonnegative product: the enlarged
canvas edge of `random_expand` (truncation = floor on nonnegatives). -/
def expandEdge (n : Nat) (r : ℚ) : Nat := (⌊(n : ℚ) * r⌋).toNat

/-- `random_expand` (image.py lines 216-257).  The random draws are passed
explicitly: `rx` is the `random.uniform(1, max_ratio)` draw for `ratio_x`;
`ry2` the independent draw used for `ratio_y` when `keep_ratio` is false;
`offY`/`offX` the `random.randint(0, oh - h)` / `(0, ow - w)` draws (randint
is inclusive on both ends).  With `max_ratio ≤ 1` the source is returned
unchanged with metadata `(0, 0, w, h)`.  Otherwise a zero canvas of shape
`(oh, ow, c) = (int(h * ratio_y), int(w * ratio_x), c)` receives the source
at rows `off_y : off_y + h`, columns `off_x : off_x + w` (for draws within
the randint ranges the slice has exactly the source shape, so the
assignment is an exact copy).  Returns `(image, (off_x, off_y, ow, oh))`. -/
def random_expand (src : Image) (maxRatio : ℚ) (keepRatio : Bool)
    (rx ry2 : ℚ) (offY offX : Nat) : Image × (Nat × Nat × Nat × Nat) :=
  if maxRatio ≤ 1 then (src, (0, 0, src.w, src.h))
  else
    let ry := if keepRatio then rx else ry2
    let oh := expandEdge src.h ry
    let ow := expandEdge src.w rx
    ({ h := oh, w := ow, c := src.c,
       data := fun i j k =>
         if offY ≤ i ∧ i < offY + src.h ∧ offX ≤ j ∧ j < offX + src.w
         then src.data (i - offY) (j - offX) k else 0 },
     (offX, offY, ow, oh))

theorem le_expandEdge (n : Nat) (r : ℚ) (hr : 1 ≤ r) : n ≤ expandEdge n r := by
  have h1 : (n : ℚ) ≤ (n : ℚ) * r := le_mul_of_one_le_right (Nat.cast_nonneg n) hr
  have h2 : (n : Int) ≤ ⌊(n : ℚ) * r⌋ := by
    rw [Int.le_floor]
    push_cast
    exact h1
  have h0 : (0 : Int) ≤ ⌊(n : ℚ) * r⌋ := le_trans (Int.natCast_nonneg n) h2
  exact (Int.le_toNat h0).mpr h2

theorem floor_toNat_eq (x : ℚ) (n : Nat) (hl : (n : ℚ) ≤ x) (hu : x < (n : ℚ) + 1) :
    (⌊x⌋).toNat = n := by
  have h : ⌊x⌋ = (n : Int) := by
    rw [Int.floor_eq_iff]
    exact ⟨by exact_mod_cast hl, by push_cast; exact hu⟩
  rw [h]
  rfl

/-- C4: for draws inside the ranges the code draws from (`ratio_x`,
`ratio_y` in `[1, max_ratio]`, offsets in the inclusive `randint` ranges),
`random_expand` with `max_ratio > 1` returns metadata
`(offset_x, offset_y, new_width, new_height)` with `offset_x + w ≤
new_width` and `offset_y + h ≤ new_height` (offsets are naturals, so
`0 ≤ offset` holds by type); and with `max_ratio ≤ 1` it returns the image
unchanged with metadata exactly `(0, 0, w, h)`. -/
theorem random_expand_metadata (src : Image) (maxRatio : ℚ) (keepRatio : Bool)
    (rx ry2 : ℚ) (offY offX : Nat)
    (hrx : 1 ≤ rx) (hry2 : 1 ≤ ry2)
    (hoffY : offY ≤ expandEdge src.h (if keepRatio then rx else ry2) - src.h)
    (hoffX : offX ≤ expandEdge src.w rx - src.w) :
    (1 < maxRatio →
      (random_expand src maxRatio keepRatio rx ry2 offY offX).2 =
        (offX, offY, expandEdge src.w rx,
          expandEdge src.h (if keepRatio then rx else ry2)) ∧
      offX + src.w ≤ expandEdge src.w rx ∧
      offY + src.h ≤ expandEdge src.h (if keepRatio then rx else ry2)) ∧
    (maxRatio ≤ 1 →
      random_expand src maxRatio keepRatio rx ry2 offY offX =
        (src, (0, 0, src.w, src.h))) := by
  have hry : (1 : ℚ) ≤ (if keepRatio then rx else ry2) := by
    cases keepRatio <;> simpa
  have hle_h : src.h ≤ expandEdge src.h (if keepRatio then rx else ry2) :=
    le_expandEdge _ _ hry
  have hle_w : src.w ≤ expandEdge src.w rx := le_expandEdge _ _ hrx
  constructor
  · intro hm
    unfold random_expand
    rw [if_neg (not_le.mpr hm)]
    exact ⟨rfl, by omega, by omega⟩
  · intro hm
    unfold random_expand
    rw [if_pos hm]

/-- Witness for C4: `sampleImg` (2 × 3 × 3), `max_ratio = 2`,
`keep_ratio = true`, `ratio_x = 3/2`, offsets (1, 1); the canvas is 3 × 4
and the placement fits. -/
theorem random_expand_metadata_witness :
    ((1 : ℚ) ≤ 3/2 ∧ (1 : ℚ) ≤ 3/2 ∧
      1 ≤ expandEdge sampleImg.h (if true then (3/2 : ℚ) else 3/2) - sampleImg.h ∧
      1 ≤ expandEdge sampleImg.w (3/2 : ℚ) - sampleImg.w) ∧
    ((1 < (2 : ℚ) →
      (random_expand sampleImg 2 true (3/2) (3/2) 1 1).2 =
        (1, 1, expandEdge sampleImg.w (3/2),
          expandEdge sampleImg.h (if true then (3/2 : ℚ) else 3/2)) ∧
      1 + sampleImg.w ≤ expandEdge sampleImg.w (3/2) ∧
      1 + sampleImg.h ≤ expandEdge sampleImg.h (if true then (3/2 : ℚ) else 3/2)) ∧
    ((2 : ℚ) ≤ 1 →
      random_expand sampleImg 2 true (3/2) (3/2) 1 1 =
        (sampleImg, (0, 0, sampleImg.w, sampleImg.h)))) := by
  have e2 : expandEdge 2 (3/2 : ℚ) = 3 := by
    unfold expandEdge
    exact floor_toNat_eq _ 3 (by push_cast; norm_num) (by push_cast; norm_num)
  have e3 : expandEdge 3 (3/2 : ℚ) = 4 := by
    unfold expandEdge
    exact floor_toNat_eq _ 4 (by push_cast; norm_num) (by push_cast; norm_num)
  refine ⟨⟨by norm_num, by norm_num, ?_, ?_⟩, ?_⟩
  · show 1 ≤ expandEdge 2 (3/2 : ℚ) - 2
    rw [e2]
  · show 1 ≤ expandEdge 3 (3/2 : ℚ) - 3
    rw [e3]
  · exact random_expand_metadata sampleImg 2 true (3/2) (3/2) 1 1
      (by norm_num) (by norm_num)
      (by show 1 ≤ expandEdge 2 (3/2 : ℚ) - 2; rw [e2])
      (by show 1 ≤ expandEdge 3 (3/2 : ℚ) - 3; rw [e3])

/-- C10: with `max_ratio > 1` and draws inside the drawn ranges, the array
returned by `random_expand` is consistent with its metadata: the canvas
shape is `(new_height, new_width, C)` exactly as in the metadata, the
region `[offset_y : offset_y + h, offset_x : offset_x + w, :]` equals the
source image, and every entry outside that region (within the canvas) is
zero. -/
theorem random_expand_canvas (src : Image) (maxRatio : ℚ) (keepRatio : Bool)
    (rx ry2 : ℚ) (offY offX i j k : Nat)
    (hm : 1 < maxRatio) (_hrx : 1 ≤ rx) (_hry2 : 1 ≤ ry2) :
    (random_expand src maxRatio keepRatio rx ry2 offY offX).1.h =
      expandEdge src.h (if keepRatio then rx else ry2) ∧
    (random_expand src maxRatio keepRatio rx ry2 offY offX).1.w =
      expandEdge src.w rx ∧
    (random_expand src maxRatio keepRatio rx ry2 offY offX).1.c = src.c ∧
    (random_expand src maxRatio keepRatio rx ry2 offY offX).2 =
      (offX, offY, expandEdge src.w rx,
        expandEdge src.h (if keepRatio then rx else ry2)) ∧
    (offY ≤ i → i < offY + src.h → offX ≤ j → j < offX + src.w →
      (random_expand src maxRatio keepRatio rx ry2 offY offX).1.data i j k =
        src.data (i - offY) (j - offX) k) ∧
    ((i < offY ∨ offY + src.h ≤ i ∨ j < offX ∨ offX + src.w ≤ j) →
      (random_expand src maxRatio keepRatio rx ry2 offY offX).1.data i j k = 0) := by
  unfold random_expand
  rw [if_neg (not_le.mpr hm)]
  refine ⟨rfl, rfl, rfl, rfl, ?_, ?_⟩
  · intro h1 h2 h3 h4
    show (if offY ≤ i ∧ i < offY + src.h ∧ offX ≤ j ∧ j < offX + src.w
      then src.data (i - offY) (j - offX) k else 0) = src.data (i - offY) (j - offX) k
    rw [if_pos ⟨h1, h2, h3, h4⟩]
  · intro hout
    show (if offY ≤ i ∧ i < offY + src.h ∧ offX ≤ j ∧ j < offX + src.w
      then src.data (i - offY) (j - offX) k else 0) = 0
    rw [if_neg (by omega)]

/-- Witness for C10: the 2 × 3 × 3 `sampleImg` expanded with
`ratio_x = ratio_y = 3/2` at offsets (1, 1), checked at pixel (1, 1, 0)
(inside the pasted region). -/
theorem random_expand_canvas_witness :
    ((1 : ℚ) < 2 ∧ (1 : ℚ) ≤ 3/2 ∧ (1 : ℚ) ≤ 3/2) ∧
    ((random_expand sampleImg 2 true (3/2) (3/2) 1 1).1.h =
        expandEdge sampleImg.h (if true then (3/2 : ℚ) else 3/2) ∧
      (random_expand sampleImg 2 true (3/2) (3/2) 1 1).1.w =
        expandEdge sampleImg.w (3/2) ∧
      (random_expand sampleImg 2 true (3/2) (3/2) 1 1).1.c = sampleImg.c ∧
      (random_expand sampleImg 2 true (3/2) (3/2) 1 1).2 =
        (1, 1, expandEdge sampleImg.w (3/2),
          expandEdge sampleImg.h (if true then (3/2 : ℚ) else 3/2)) ∧
      (1 ≤ 1 → 1 < 1 + sampleImg.h → 1 ≤ 1 → 1 < 1 + sampleImg.w →
        (random_expand sampleImg 2 true (3/2) (3/2) 1 1).1.data 1 1 0 =
          sampleImg.data (1 - 1) (1 - 1) 0) ∧
      ((1 < 1 ∨ 1 + sampleImg.h ≤ 1 ∨ 1 < 1 ∨ 1 + sampleImg.w ≤ 1) →
        (random_expand sampleImg 2 true (3/2) (3/2) 1 1).1.data 1 1 0 = 0)) :=
  ⟨⟨by norm_num, by norm_num, by norm_num⟩,
    random_expand_canvas sampleImg 2 true (3/2) (3/2) 1 1 1 1 0
      (by norm_num) (by norm_num) (by norm_num)⟩

end Yolo3Img

namespace Yolo3Img

/-- Brightness distortion body (image.py line 54): `src += delta`. -/
def brightnessShift (img : Image) (delta : ℚ) : Image :=
  { img with data := fun i j k => img.data i j k + delta }

/-- Contrast distortion body (image.py line 62): `src *= alpha`. -/
def contrastScale (img : Image) (alpha : ℚ) : Image :=
  { img with data := fun i j k => img.data i j k * alpha }

/-- The per-pixel luma of the saturation distortion (image.py lines 70-71):
`np.sum(src * [[[0.299, 0.587, 0.114]]], axis=2)` (assumes 3 channels, as
the broadcast against the weight vector does). -/
def grayLuma (img : Image) (i j : Nat) : ℚ :=
  img.data i j 0 * (299/1000) + img.data i j 1 * (587/1000) +
    img.data i j 2 * (114/1000)

/-- Saturation distortion body (image.py lines 70-74):
`gray *= (1 - alpha); src *= alpha; src += gray`, i.e.
`alpha * src + (1 - alpha) * gray` per channel. -/
def saturationBlend (img : Image) (alpha : ℚ) : Image :=
  { img with data := fun i j k =>
      img.data i j k * alpha + grayLuma img i j * (1 - alpha) }

/-- RGB → YIQ matrix `tyiq` (image.py lines 87-89), rows × columns. -/
def tyiqM : Nat → Nat → ℚ
  | 0, 0 => 299/1000
  | 0, 1 => 587/1000
  | 0, 2 => 114/1000
  | 1, 0 => 596/1000
  | 1, 1 => -274/1000
  | 1, 2 => -321/1000
  | 2, 0 => 211/1000
  | 2, 1 => -523/1000
  | 2, 2 => 311/1000
  | _, _ => 0

/-- YIQ → RGB matrix `ityiq` (image.py lines 90-92). -/
def ityiqM : Nat → Nat → ℚ
  | 0, 0 => 1
  | 0, 1 => 956/1000
  | 0, 2 => 621/1000
  | 1, 0 => 1
  | 1, 1 => -272/1000
  | 1, 2 => -647/1000
  | 2, 0 => 1
  | 2, 1 => -1107/1000
  | 2, 2 => 1705/1000
  | _, _ => 0

/-- The YIQ rotation `bt` (image.py lines 84-86) with
`u = cos(alpha * pi)`, `v = sin(alpha * pi)`.  The uniform draw `alpha`
enters the code only through this cosine/sine pair, which is transcendental
in general; the embedding therefore takes the pair itself as the draw. -/
def btM (u v : ℚ) : Nat → Nat → ℚ
  | 0, 0 => 1
  | 1, 1 => u
  | 1, 2 => -v
  | 2, 1 => v
  | 2, 2 => u
  | _, _ => 0

/-- 3 × 3 matrix product, `np.dot` on the first two axes. -/
def matMul3 (A B : Nat → Nat → ℚ) : Nat → Nat → ℚ :=
  fun r c => A r 0 * B 0 c + A r 1 * B 1 c + A r 2 * B 2 c

/-- Hue distortion body (image.py lines 82-94):
`t = np.dot(np.dot(ityiq, bt), tyiq).T; src = np.dot(src, t)`, so output
channel `k` is `sum_l src_l * M[k, l]` with `M = ityiq · bt · tyiq`. -/
def hueRotate (img : Image) (u v : ℚ) : Image :=
  { img with data := fun i j k =>
      img.data i j 0 * matMul3 (matMul3 ityiqM (btM u v)) tyiqM k 0 +
      img.data i j 1 * matMul3 (matMul3 ityiqM (btM u v)) tyiqM k 1 +
      img.data i j 2 * matMul3 (matMul3 ityiqM (btM u v)) tyiqM k 2 }

/-- The random draws one call of `random_color_distort` can consume, one
field per `np.random` / `random` call site: a gate draw
(`np.random.uniform(0, 1)`, the sub-transform runs iff it exceeds
`p = 0.5`, so with probability exactly 1/2) and a value draw for each of
the four sub-transforms, plus the ordering draw
(`np.random.randint(0, 2)`, an unbiased coin; `orderFlag` is its
truthiness).  The fields are independent components: each gate decision
reads only its own field. -/
structure ColorDraws where
  gateBri : ℚ
  deltaBri : ℚ
  orderFlag : Bool
  gateCon : ℚ
  alphaCon : ℚ
  gateSat : ℚ
  alphaSat : ℚ
  gateHue : ℚ
  uHue : ℚ
  vHue : ℚ

/-- `brightness` (image.py lines 50-56): applied iff its own uniform gate
draw exceeds `p = 0.5`. -/
def briStep (d : ColorDraws) (img : Image) : Image :=
  if 1/2 < d.gateBri then brightnessShift img d.deltaBri else img

/-- `contrast` (image.py lines 58-64). -/
def conStep (d : ColorDraws) (img : Image) : Image :=
  if 1/2 < d.gateCon then contrastScale img d.alphaCon else img

/-- `saturation` (image.py lines 66-76). -/
def satStep (d : ColorDraws) (img : Image) : Image :=
  if 1/2 < d.gateSat then saturationBlend img d.alphaSat else img

/-- `hue` (image.py lines 78-96). -/
def hueStep (d : ColorDraws) (img : Image) : Image :=
  if 1/2 < d.gateHue then hueRotate img d.uHue d.vHue else img

/-- `random_color_distort` (image.py lines 98-112): brightness first, then
`if np.random.randint(0, 2):` contrast → saturation → hue, else
saturation → hue → contrast (the `astype('float32')` on entry is the
identity in the exact model). -/
def random_color_distort (img : Image) (d : ColorDraws) : Image :=
  let s1 := briStep d img
  if d.orderFlag then hueStep d (satStep d (conStep d s1))
  else conStep d (hueStep d (satStep d s1))

/-- C8: each of the four sub-transforms is applied iff its own gate draw —
an independent `uniform(0, 1)` per sub-transform — exceeds 1/2 (so each is
applied with probability 0.5, independently); brightness is always
attempted first; and the remaining three are applied in exactly one of two
orderings selected by the unbiased `randint(0, 2)` draw: contrast →
saturation → hue when it is nonzero, saturation → hue → contrast
otherwise. -/
theorem random_color_distort_structure (img : Image) (d : ColorDraws) :
    (d.orderFlag = true →
      random_color_distort img d =
        hueStep d (satStep d (conStep d (briStep d img)))) ∧
    (d.orderFlag = false →
      random_color_distort img d =
        conStep d (hueStep d (satStep d (briStep d img)))) ∧
    (1/2 < d.gateBri → briStep d img = brightnessShift img d.deltaBri) ∧
    (d.gateBri ≤ 1/2 → briStep d img = img) ∧
    (1/2 < d.gateCon → conStep d img = contrastScale img d.alphaCon) ∧
    (d.gateCon ≤ 1/2 → conStep d img = img) ∧
    (1/2 < d.gateSat → satStep d img = saturationBlend img d.alphaSat) ∧
    (d.gateSat ≤ 1/2 → satStep d img = img) ∧
    (1/2 < d.gateHue → hueStep d img = hueRotate img d.uHue d.vHue) ∧
    (d.gateHue ≤ 1/2 → hueStep d img = img) := by
  refine ⟨?_, ?_, ?_, ?_, ?_, ?_, ?_, ?_, ?_, ?_⟩
  · intro h
    unfold random_color_distort
    rw [if_pos h]
  · intro h
    unfold random_color_distort
    rw [if_neg (by simp [h])]
  · intro h
    unfold briStep
    rw [if_pos h]
  · intro h
    unfold briStep
    rw [if_neg (not_lt.mpr h)]
  · intro h
    unfold conStep
    rw [if_pos h]
  · intro h
    unfold conStep
    rw [if_neg (not_lt.mpr h)]
  · intro h
    unfold satStep
    rw [if_pos h]
  · intro h
    unfold satStep
    rw [if_neg (not_lt.mpr h)]
  · intro h
    unfold hueStep
    rw [if_pos h]
  · intro h
    unfold hueStep
    rw [if_neg (not_lt.mpr h)]

end Yolo3Img
